import Mathlib

/-
  Verification development for the ground-segmentation pipeline of
  src/04_dbscan_clustering.py: a plane-based coordinate transform,
  a grid height map with per-cell percentile estimates and neighbor
  smoothing, and a floor/non-floor point classifier.

  Numbers: exact rationals stand in for IEEE doubles.  The single
  irrational quantity of the pipeline, the norm of the plane normal
  computed by np.linalg.norm on line 26, is passed to the embedded
  transformer as an explicit argument nrm, constrained in the theorems
  by 0 < nrm (or nrm = 0) together with nrm ^ 2 = a ^ 2 + b ^ 2 + c ^ 2,
  so that the development stays computable inside the rationals.
-/

/-- A 3-D point, one row of an (N, 3) numpy array, with exact rational
coordinates standing in for floats. -/
structure Point3 where
  x : ℚ
  y : ℚ
  z : ℚ
deriving Repr

/-- Error channel of the transformer.  The spec names a DegeneratePlane
failure for a zero-length normal; the source function (lines 7-42) contains
no such check and no raise statement, so no code path of the embedding
produces this error. -/
inductive TransformError where
  | degeneratePlane
deriving Repr, DecidableEq

/-- Embedding of transform_to_plane_based_coordinates (lines 7-42).
Line 29: distances = (a x + b y + c z + d) / normal_norm ** 2, with
normal_norm the Euclidean norm of (a, b, c) passed here as nrm.
Line 30: projected_points = points - distances * normal.
Lines 33-34 recompute the same plane values and set new_z = value / nrm.
Line 39 stacks (projected.x, projected.y, new_z).  Rational division by a
zero nrm (convention q / 0 = 0) stands in for the non-finite float values
numpy produces there; in either semantics no exception is raised. -/
def transformPoint (a b c d nrm : ℚ) (p : Point3) : Point3 :=
  let s := a * p.x + b * p.y + c * p.z + d
  let t := s / nrm ^ 2
  { x := p.x - t * a, y := p.y - t * b, z := s / nrm }

/-- Whole-array form of the transformer: the vectorized numpy expressions of
lines 29-39 act row by row, embedded as a map of transformPoint over the
point list, wrapped in the (never used) exception channel. -/
def transform_to_plane_based_coordinates (points : List Point3)
    (a b c d nrm : ℚ) : Except TransformError (List Point3) :=
  Except.ok (points.map (transformPoint a b c d nrm))

/-- Signed plane value of lines 29 and 33: a x + b y + c z + d evaluated at
a point. -/
def plane_equation_value (a b c d : ℚ) (p : Point3) : ℚ :=
  a * p.x + b * p.y + c * p.z + d

/-- Embedding of np.searchsorted(bins, v, side=right) on an ascending bins
array: the insertion index that keeps bins sorted, i.e. the length of the
leading run of entries that are ≤ v. -/
def np_searchsorted_right (bins : List ℚ) (v : ℚ) : ℕ :=
  (bins.takeWhile fun b => decide (b ≤ v)).length

/-- Embedding of np.digitize(v, bins) for monotonically increasing bins with
the default right=False: the index i such that bins[i-1] ≤ v < bins[i],
i.e. the number of bin edges that are ≤ v. -/
def np_digitize (v : ℚ) (bins : List ℚ) : ℕ :=
  bins.countP fun b => decide (b ≤ v)

/-- Cell index used by the height-map builder (lines 49-50):
np.digitize minus 1, possibly -1 for a coordinate below the first edge. -/
def builderCellIdx (bins : List ℚ) (v : ℚ) : ℤ :=
  (np_digitize v bins : ℤ) - 1

/-- Cell index used by the classifier (lines 211-212):
np.searchsorted(..., side=right) minus 1. -/
def classifierCellIdx (bins : List ℚ) (v : ℚ) : ℤ :=
  (np_searchsorted_right bins v : ℤ) - 1

/-- Validity test of the mask on lines 53-54 (and of the bounds check on
line 213): the cell index lies in [0, len(bins) - 1). -/
def validIdx (bins : List ℚ) (i : ℤ) : Bool :=
  decide (0 ≤ i) && decide (i < (bins.length : ℤ) - 1)

/-- Loop body of lines 62-67 over a Python dict (insertion ordered): append
the z-value to the entry of key k, creating the entry at the end when the
key is absent. -/
def addToCell (m : List ((ℤ × ℤ) × List ℚ)) (k : ℤ × ℤ) (z : ℚ) :
    List ((ℤ × ℤ) × List ℚ) :=
  if m.any fun e => decide (e.1 = k) then
    m.map fun e => if e.1 = k then (e.1, e.2 ++ [z]) else e
  else m ++ [(k, [z])]

/-- Steps 1-3a of calculate_height_map (lines 49-67): digitize both
coordinates, keep the points whose cell passes the validity mask, and group
their z-values per cell.  The vectorized mask of lines 53-56 acts pointwise,
so it is folded into the per-point guard of the grouping loop. -/
def cellStep (x_bins y_bins : List ℚ) (m : List ((ℤ × ℤ) × List ℚ))
    (p : Point3) : List ((ℤ × ℤ) × List ℚ) :=
  let i := builderCellIdx x_bins p.x
  let j := builderCellIdx y_bins p.y
  if validIdx x_bins i && validIdx y_bins j then addToCell m (i, j) p.z
  else m

/-- Whole-frame grouping: fold the per-point step over the frame, starting
from the empty dict. -/
def buildCellLists (points : List Point3) (x_bins y_bins : List ℚ) :
    List ((ℤ × ℤ) × List ℚ) :=
  points.foldl (cellStep x_bins y_bins) []

/-- Rank computed on line 72: max(0, int(len * 0.05)).  In exact arithmetic
int(n * 0.05) is the floor of n / 20, i.e. n * 5 / 100 in natural division,
and the max-with-0 clamp is the identity on naturals. -/
def index_5th_percentile (n : ℕ) : ℕ :=
  max 0 (n * 5 / 100)

/-- Per-cell raw estimate of lines 69-75: sort the z-values of the cell
ascending (np.sort) and take the entry at the 5th-percentile rank.  The
source stores None for an empty value list; such a list is never created
(every cell is born holding one value), and the dead branch is embedded as
the none case of an Option. -/
def rawEstimate (zs : List ℚ) : Option ℚ :=
  if zs.isEmpty then none
  else
    let sorted_z_values := List.insertionSort (· ≤ ·) zs
    some (sorted_z_values.getD (index_5th_percentile sorted_z_values.length) 0)

/-- Raw height map after Step 3 (lines 61-75): each occupied cell paired
with its raw 5th-percentile estimate. -/
def rawHeightMap (points : List Point3) (x_bins y_bins : List ℚ) :
    List ((ℤ × ℤ) × Option ℚ) :=
  (buildCellLists points x_bins y_bins).map fun e => (e.1, rawEstimate e.2)

/-- List lookup with an integer index.  Every key reaching this function has
passed the validity mask, so the index is in [0, len(bins) - 1) and the
Python accesses bins[i] and bins[i + 1] are in range; the default is never
used there. -/
def binAt (bins : List ℚ) (i : ℤ) : ℚ :=
  bins.getD i.toNat 0

/-- Grid-cell center of lines 86 and 98-99: the midpoint of the bin edges of
the cell in each axis. -/
def cellCenter (x_bins y_bins : List ℚ) (k : ℤ × ℤ) : ℚ × ℚ :=
  ((binAt x_bins k.1 + binAt x_bins (k.1 + 1)) / 2,
   (binAt y_bins k.2 + binAt y_bins (k.2 + 1)) / 2)

/-- Squared Euclidean distance between two planar centers. -/
def distSq (p q : ℚ × ℚ) : ℚ :=
  (p.1 - q.1) ^ 2 + (p.2 - q.2) ^ 2

/-- Embedding of cKDTree(centers).query_ball_point(q, r) on line 102: the
indices of all centers within Euclidean distance r of q (an exact, closed
ball per the scipy contract), phrased with squared distances to stay inside
the rationals. -/
def query_ball_point (centers : List (ℚ × ℚ)) (q : ℚ × ℚ) (r : ℚ) :
    List ℕ :=
  (List.range centers.length).filter fun idx =>
    decide (distSq (centers.getD idx (0, 0)) q ≤ r ^ 2)

/-- Value of search_radius set on line 90. -/
def search_radius : ℚ := 1

/-- Body of the smoothing loop (lines 97-113) for one occupied cell (k, h):
query the tree of occupied-cell centers for neighbors within the search
radius, take the smallest neighbor estimate, and snap h to it when the
difference exceeds the threshold.  grid_keys and grid_values are the raw
pre-smoothing snapshot built on lines 82-83; the is-not-None filter of
line 103 is vacuous because grid_values holds only non-None entries. -/
def smoothCellValue (x_bins y_bins : List ℚ) (threshold : ℚ)
    (grid_keys : List (ℤ × ℤ)) (grid_values : List ℚ)
    (k : ℤ × ℤ) (h : ℚ) : ℚ :=
  let centers := grid_keys.map (cellCenter x_bins y_bins)
  let c := cellCenter x_bins y_bins k
  let indices := query_ball_point centers c search_radius
  let neighbor_heights := indices.map fun idx => grid_values.getD idx 0
  match neighbor_heights.min? with
  | some m => if threshold < |h - m| then m else h
  | none => h

/-- Step 4 smoothing pass (lines 79-116) on the occupied-cell list:
grid_keys and grid_values are computed once from the raw map, and the
smoothed value of every cell is a function of that snapshot only, written
into a fresh processed map. -/
def smoothPass (x_bins y_bins : List ℚ) (threshold : ℚ)
    (grid : List ((ℤ × ℤ) × ℚ)) : List ((ℤ × ℤ) × ℚ) :=
  let grid_keys := grid.map Prod.fst
  let grid_values := grid.map Prod.snd
  grid.map fun e =>
    (e.1, smoothCellValue x_bins y_bins threshold grid_keys grid_values e.1 e.2)

/-- Failure mode of calculate_height_map.  With no occupied cell, line 86
builds np.array([]) of shape (0,), and the cKDTree constructor on line 87
rejects any data array that is not 2-dimensional with a ValueError, aborting
the call before any result is assembled; the spec names this failure
EmptyGrid. -/
inductive HeightMapError where
  | emptyGrid
deriving Repr, DecidableEq

/-- Embedding of the cKDTree construction on line 87: it fails on an empty
center list (a 0-length comprehension yields a 1-dimensional numpy array,
which cKDTree rejects), and otherwise the tree is just the center list. -/
def cKDTree_build (centers : List (ℚ × ℚ)) :
    Except HeightMapError (List (ℚ × ℚ)) :=
  if centers.isEmpty then Except.error HeightMapError.emptyGrid
  else Except.ok centers

/-- Embedding of calculate_height_map (lines 45-116): group z-values per
valid cell, take the per-cell percentile estimates, drop the (in fact never
present) None entries as the comprehensions on lines 82-83 do, build the
tree over the occupied-cell centers, and run the smoothing pass against the
raw snapshot. -/
def calculate_height_map (points : List Point3) (x_bins y_bins : List ℚ)
    (threshold : ℚ) : Except HeightMapError (List ((ℤ × ℤ) × ℚ)) :=
  let height_map := rawHeightMap points x_bins y_bins
  let grid := height_map.filterMap fun e => e.2.map fun v => (e.1, v)
  match cKDTree_build (grid.map fun e => cellCenter x_bins y_bins e.1) with
  | Except.error err => Except.error err
  | Except.ok _ => Except.ok (smoothPass x_bins y_bins threshold grid)

/-- Python dict .get on the processed height map (line 214): the value of
the first entry carrying the key (keys are unique in a dict). -/
def hmGet (hm : List ((ℤ × ℤ) × ℚ)) (k : ℤ × ℤ) : Option ℚ :=
  (hm.find? fun e => decide (e.1 = k)).map Prod.snd

/-- Non-floor test of lines 210-216 for one point: locate its cell by
searchsorted-right minus 1 in each axis, require the cell inside the grid
bounds, look it up in the smoothed height map, and compare the height gap
with the threshold. -/
def isNonFloorPoint (x_bins y_bins : List ℚ) (hm : List ((ℤ × ℤ) × ℚ))
    (threshold : ℚ) (p : Point3) : Bool :=
  let x_idx := classifierCellIdx x_bins p.x
  let y_idx := classifierCellIdx y_bins p.y
  if validIdx x_bins x_idx && validIdx y_bins y_idx then
    match hmGet hm (x_idx, y_idx) with
    | some smoothed_height => decide (threshold < |p.z - smoothed_height|)
    | none => false
  else false

/-- Embedding of the loop of lines 208-216: the indices of the points
classified non-floor, collected in increasing index order exactly as the
Python enumerate loop appends them. -/
def non_floor_indices (points : List Point3) (x_bins y_bins : List ℚ)
    (hm : List ((ℤ × ℤ) × ℚ)) (threshold : ℚ) : List ℕ :=
  points.enum.filterMap fun e =>
    if isNonFloorPoint x_bins y_bins hm threshold e.2 then some e.1 else none

/-- Embedding of line 221: floor_indices = set(range(N)) - set(non_floor).
The Python value is an unordered set; it is embedded as the increasing
enumeration of the same membership predicate. -/
def floor_indices (points : List Point3) (x_bins y_bins : List ℚ)
    (hm : List ((ℤ × ℤ) × ℚ)) (threshold : ℚ) : List ℕ :=
  (List.range points.length).filter fun idx =>
    decide (idx ∉ non_floor_indices points x_bins y_bins hm threshold)

/-- Spec-side predicate (spec section 4.3): a point is excluded when its cell
lies outside the grid bounds or is unoccupied in the height map. -/
def isExcludedPoint (x_bins y_bins : List ℚ) (hm : List ((ℤ × ℤ) × ℚ))
    (p : Point3) : Bool :=
  let x_idx := classifierCellIdx x_bins p.x
  let y_idx := classifierCellIdx y_bins p.y
  !(validIdx x_bins x_idx && validIdx y_bins y_idx) ||
    (hmGet hm (x_idx, y_idx)).isNone

/-- Spec-side predicate (spec section 4.3): a classifier floor point has an
in-bounds occupied cell whose estimate is within the threshold. -/
def isClassifierFloorPoint (x_bins y_bins : List ℚ)
    (hm : List ((ℤ × ℤ) × ℚ)) (threshold : ℚ) (p : Point3) : Bool :=
  let x_idx := classifierCellIdx x_bins p.x
  let y_idx := classifierCellIdx y_bins p.y
  if validIdx x_bins x_idx && validIdx y_bins y_idx then
    match hmGet hm (x_idx, y_idx) with
    | some smoothed_height => decide (|p.z - smoothed_height| ≤ threshold)
    | none => false
  else false

/-- Spec-side enumeration of the excluded indices of a frame, in increasing
index order. -/
def excluded_indices (points : List Point3) (x_bins y_bins : List ℚ)
    (hm : List ((ℤ × ℤ) × ℚ)) : List ℕ :=
  points.enum.filterMap fun e =>
    if isExcludedPoint x_bins y_bins hm e.2 then some e.1 else none

/-- Spec-side description of the Step C neighborhood: the raw estimates of
all occupied cells whose center lies within the search radius of the center
of cell k. -/
def specNeighborHeights (x_bins y_bins : List ℚ)
    (grid : List ((ℤ × ℤ) × ℚ)) (k : ℤ × ℤ) : List ℚ :=
  (grid.filter fun e =>
      decide (distSq (cellCenter x_bins y_bins e.1) (cellCenter x_bins y_bins k) ≤
        search_radius ^ 2)).map Prod.snd

/-- Spec-side median of a list of values: the average of the two middle
entries of the ascending sort (which coincide for an odd length). -/
def listMedian (l : List ℚ) : ℚ :=
  let s := List.insertionSort (· ≤ ·) l
  (s.getD ((l.length - 1) / 2) 0 + s.getD (l.length / 2) 0) / 2

instance : Std.Antisymm (fun a b : ℚ => a ≤ b) :=
  ⟨fun h h2 => le_antisymm h h2⟩

/-- Characterization of the minimum of a rational list. -/
lemma rat_min?_eq_some_iff {l : List ℚ} {a : ℚ} :
    l.min? = some a ↔ a ∈ l ∧ ∀ b ∈ l, a ≤ b :=
  List.min?_eq_some_iff (le_refl) (min_choice) (fun _ _ _ => le_min_iff)

/-- The minimum of a list is invariant under permutation. -/
lemma min?_perm {l l2 : List ℚ} (hp : l.Perm l2) : l.min? = l2.min? := by
  cases hmin : l.min? with
  | none =>
    rw [List.min?_eq_none_iff] at hmin
    subst hmin
    have h2 : l2 = [] := (List.Perm.nil_eq hp).symm
    subst h2
    rfl
  | some a =>
    rw [rat_min?_eq_some_iff] at hmin
    exact (rat_min?_eq_some_iff.mpr
      ⟨hp.mem_iff.mp hmin.1, fun b hb => hmin.2 b (hp.mem_iff.mpr hb)⟩).symm

/-- Reading a mapped list at an in-range index with any defaults. -/
lemma getD_map_of_lt {α β : Type} (l : List α) (f : α → β) (i : ℕ)
    (hi : i < l.length) (d : α) (d2 : β) :
    (l.map f).getD i d2 = f (l.getD i d) := by
  rw [List.getD_eq_getElem?_getD, List.getD_eq_getElem?_getD,
    List.getElem?_map, List.getElem?_eq_getElem hi]
  simp

/-- Filtering and reading a list through its index range is the same as
filtering and mapping the list directly. -/
lemma indexFilterMap {α β : Type} (l : List α) (p : α → Bool) (f : α → β)
    (d : α) :
    ((List.range l.length).filter fun i => p (l.getD i d)).map
      (fun i => f (l.getD i d)) = (l.filter p).map f := by
  induction l with
  | nil => simp
  | cons a as ih =>
    have hshift :
        (((List.range as.length).map Nat.succ).filter
            (fun i => p ((a :: as).getD i d))).map
          (fun i => f ((a :: as).getD i d)) =
        ((List.range as.length).filter fun i => p (as.getD i d)).map
          (fun i => f (as.getD i d)) := by
      rw [List.filter_map, List.map_map]
      simp only [Function.comp_def, Nat.succ_eq_add_one, List.getD_cons_succ]
    simp only [List.length_cons, List.range_succ_eq_map, List.filter_cons,
      List.getD_cons_zero]
    by_cases hpa : p a = true
    · simp only [hpa, if_true, List.map_cons, hshift, ih]
      simp
    · simp only [Bool.not_eq_true] at hpa
      simp only [hpa, Bool.false_eq_true, if_false, hshift, ih]

/-- Reading an in-range index of a list is a member of the list. -/
lemma getD_mem_of_lt {α : Type} (l : List α) (i : ℕ) (hi : i < l.length)
    (d : α) : l.getD i d ∈ l := by
  rw [List.getD_eq_getElem?_getD, List.getElem?_eq_getElem hi]
  exact List.getElem_mem hi

/-- The minimum of a list bounds every member from below. -/
lemma min?_le_of_mem {l : List ℚ} {m b : ℚ} (hm : l.min? = some m)
    (hb : b ∈ l) : m ≤ b :=
  (rat_min?_eq_some_iff.mp hm).2 b hb

/-- A list with a member has a minimum. -/
lemma min?_isSome_of_mem {l : List ℚ} {b : ℚ} (hb : b ∈ l) :
    ∃ m, l.min? = some m := by
  cases hmin : l.min? with
  | some m => exact ⟨m, rfl⟩
  | none =>
    rw [List.min?_eq_none_iff] at hmin
    subst hmin
    simp at hb

/-- The neighbor heights gathered through the KD-tree index list are exactly
the raw estimates of the occupied cells within the search radius. -/
lemma neighbor_heights_eq_spec (x_bins y_bins : List ℚ)
    (grid : List ((ℤ × ℤ) × ℚ)) (k : ℤ × ℤ) :
    (query_ball_point ((grid.map Prod.fst).map (cellCenter x_bins y_bins))
        (cellCenter x_bins y_bins k) search_radius).map
      (fun idx => (grid.map Prod.snd).getD idx 0) =
    specNeighborHeights x_bins y_bins grid k := by
  unfold query_ball_point specNeighborHeights
  rw [List.map_map, List.length_map]
  have h1 : ∀ i ∈ List.range grid.length,
      decide (distSq ((grid.map (cellCenter x_bins y_bins ∘ Prod.fst)).getD i (0, 0))
        (cellCenter x_bins y_bins k) ≤ search_radius ^ 2) =
      (fun e : (ℤ × ℤ) × ℚ => decide (distSq (cellCenter x_bins y_bins e.1)
        (cellCenter x_bins y_bins k) ≤ search_radius ^ 2))
        (grid.getD i ((0, 0), 0)) := by
    intro i hi
    rw [List.mem_range] at hi
    rw [getD_map_of_lt grid (cellCenter x_bins y_bins ∘ Prod.fst) i hi ((0, 0), 0) (0, 0)]
    rfl
  rw [List.filter_congr h1]
  have h2 : ∀ i ∈ (List.range grid.length).filter
      (fun i => (fun e : (ℤ × ℤ) × ℚ => decide (distSq (cellCenter x_bins y_bins e.1)
        (cellCenter x_bins y_bins k) ≤ search_radius ^ 2)) (grid.getD i ((0, 0), 0))),
      (grid.map Prod.snd).getD i 0 =
        (fun j => Prod.snd (grid.getD j ((0, 0), 0))) i := by
    intro i hi
    have hir : i < grid.length := by
      have := (List.mem_filter.mp hi).1
      rwa [List.mem_range] at this
    rw [getD_map_of_lt grid Prod.snd i hir ((0, 0), 0) 0]
  rw [List.map_congr_left h2]
  exact indexFilterMap grid
    (fun e : (ℤ × ℤ) × ℚ => decide (distSq (cellCenter x_bins y_bins e.1)
      (cellCenter x_bins y_bins k) ≤ search_radius ^ 2)) Prod.snd ((0, 0), 0)

/-- Smoothing of one cell against the raw snapshot equals the spec-side
description: take the minimum raw estimate over the occupied cells within
the search radius and snap to it when the gap exceeds the threshold. -/
lemma smoothCellValue_eq_spec (x_bins y_bins : List ℚ) (threshold : ℚ)
    (grid : List ((ℤ × ℤ) × ℚ)) (k : ℤ × ℤ) (h : ℚ) :
    smoothCellValue x_bins y_bins threshold (grid.map Prod.fst)
      (grid.map Prod.snd) k h =
    match (specNeighborHeights x_bins y_bins grid k).min? with
    | some m => if threshold < |h - m| then m else h
    | none => h := by
  simp only [smoothCellValue]
  rw [neighbor_heights_eq_spec]

/-- A cell is always inside its own neighborhood. -/
lemma self_mem_specNeighborHeights (x_bins y_bins : List ℚ)
    (grid : List ((ℤ × ℤ) × ℚ)) {e : (ℤ × ℤ) × ℚ} (he : e ∈ grid) :
    e.2 ∈ specNeighborHeights x_bins y_bins grid e.1 := by
  unfold specNeighborHeights
  refine List.mem_map.mpr ⟨e, List.mem_filter.mpr ⟨he, ?_⟩, rfl⟩
  norm_num [distSq, search_radius]

/-- A cell given as a key-value pair is inside its own neighborhood. -/
lemma pair_mem_specNeighborHeights (x_bins y_bins : List ℚ)
    (grid : List ((ℤ × ℤ) × ℚ)) {k : ℤ × ℤ} {h : ℚ} (he : (k, h) ∈ grid) :
    h ∈ specNeighborHeights x_bins y_bins grid k := by
  unfold specNeighborHeights
  refine List.mem_map.mpr ⟨(k, h), List.mem_filter.mpr ⟨he, ?_⟩, rfl⟩
  norm_num [distSq, search_radius]

/-- Entry i of the smoothing pass output: the same key, with the value
smoothed against the raw snapshot. -/
lemma smoothPass_getD (x_bins y_bins : List ℚ) (threshold : ℚ)
    (grid : List ((ℤ × ℤ) × ℚ)) (i : ℕ) (hi : i < grid.length) :
    (smoothPass x_bins y_bins threshold grid).getD i ((0, 0), 0) =
      ((grid.getD i ((0, 0), 0)).1,
        smoothCellValue x_bins y_bins threshold (grid.map Prod.fst)
          (grid.map Prod.snd) (grid.getD i ((0, 0), 0)).1
          (grid.getD i ((0, 0), 0)).2) := by
  simp only [smoothPass]
  exact getD_map_of_lt grid _ i hi ((0, 0), 0) ((0, 0), 0)

/-- The smoothing pass never raises the estimate of any cell. -/
lemma smoothPass_le (x_bins y_bins : List ℚ) (threshold : ℚ)
    (grid : List ((ℤ × ℤ) × ℚ)) (i : ℕ) (hi : i < grid.length) :
    ((smoothPass x_bins y_bins threshold grid).getD i ((0, 0), 0)).2 ≤
      (grid.getD i ((0, 0), 0)).2 := by
  rw [smoothPass_getD x_bins y_bins threshold grid i hi,
    smoothCellValue_eq_spec]
  have hmem : (grid.getD i ((0, 0), 0)).2 ∈
      specNeighborHeights x_bins y_bins grid (grid.getD i ((0, 0), 0)).1 :=
    self_mem_specNeighborHeights x_bins y_bins grid (getD_mem_of_lt grid i hi _)
  obtain ⟨m, hm⟩ := min?_isSome_of_mem hmem
  rw [hm]
  have hle := min?_le_of_mem hm hmem
  dsimp only
  split
  · exact hle
  · exact le_refl _

/-- The smoothing pass keeps the key of every entry in place. -/
lemma smoothPass_key (x_bins y_bins : List ℚ) (threshold : ℚ)
    (grid : List ((ℤ × ℤ) × ℚ)) (i : ℕ) (hi : i < grid.length) :
    ((smoothPass x_bins y_bins threshold grid).getD i ((0, 0), 0)).1 =
      (grid.getD i ((0, 0), 0)).1 := by
  rw [smoothPass_getD x_bins y_bins threshold grid i hi]

/-- The smoothing pass preserves the number of occupied cells. -/
lemma smoothPass_length (x_bins y_bins : List ℚ) (threshold : ℚ)
    (grid : List ((ℤ × ℤ) × ℚ)) :
    (smoothPass x_bins y_bins threshold grid).length = grid.length := by
  simp [smoothPass]

/-- C2: for every occupied cell (k, h) of the raw map, the smoothing pass
produces, at the same position, the key k with value m when the gap
|h - m| exceeds the threshold and h otherwise, where m is the minimum raw
estimate over the occupied cells whose center lies within the search radius
of the center of k; the cell itself is always among those neighbors (so a
minimum always exists and m ≤ h), every query reads only the raw snapshot,
and the per-cell result is invariant under permuting the processing order
of the cells. -/
theorem C2_smoothing_pass (x_bins y_bins : List ℚ) (threshold : ℚ)
    (grid : List ((ℤ × ℤ) × ℚ)) (i : ℕ) (k : ℤ × ℤ) (h : ℚ)
    (hi : i < grid.length) (he : grid.getD i ((0, 0), 0) = (k, h)) :
    ∃ m : ℚ, (specNeighborHeights x_bins y_bins grid k).min? = some m ∧
      h ∈ specNeighborHeights x_bins y_bins grid k ∧ m ≤ h ∧
      (smoothPass x_bins y_bins threshold grid).getD i ((0, 0), 0) =
        (k, if threshold < |h - m| then m else h) ∧
      (∀ grid2 : List ((ℤ × ℤ) × ℚ), grid.Perm grid2 →
        smoothCellValue x_bins y_bins threshold (grid2.map Prod.fst)
          (grid2.map Prod.snd) k h =
        smoothCellValue x_bins y_bins threshold (grid.map Prod.fst)
          (grid.map Prod.snd) k h) := by
  have hmemE : (k, h) ∈ grid := by
    rw [← he]
    exact getD_mem_of_lt grid i hi ((0, 0), 0)
  have hmem : h ∈ specNeighborHeights x_bins y_bins grid k :=
    pair_mem_specNeighborHeights x_bins y_bins grid hmemE
  obtain ⟨m, hm⟩ := min?_isSome_of_mem hmem
  refine ⟨m, hm, hmem, min?_le_of_mem hm hmem, ?_, ?_⟩
  · rw [smoothPass_getD x_bins y_bins threshold grid i hi, he]
    dsimp only
    rw [smoothCellValue_eq_spec, hm]
  · intro grid2 hp
    rw [smoothCellValue_eq_spec, smoothCellValue_eq_spec]
    have hperm : (specNeighborHeights x_bins y_bins grid k).Perm
        (specNeighborHeights x_bins y_bins grid2 k) :=
      List.Perm.map Prod.snd (List.Perm.filter _ hp)
    rw [min?_perm hperm]

/-- Witness for C2 on a concrete two-cell map: entry 1, the cell (1, 0) with
raw estimate 1, is smoothed against the raw snapshot of both cells. -/
theorem C2_smoothing_pass_witness :
    1 < ([((0, 0), 0), ((1, 0), 1)] : List ((ℤ × ℤ) × ℚ)).length ∧
    ([((0, 0), 0), ((1, 0), 1)] : List ((ℤ × ℤ) × ℚ)).getD 1 ((0, 0), 0) =
      ((1, 0), 1) ∧
    (∃ m : ℚ,
      (specNeighborHeights [0, 1, 2] [0, 1]
        [((0, 0), 0), ((1, 0), 1)] (1, 0)).min? = some m ∧
      (1 : ℚ) ∈ specNeighborHeights [0, 1, 2] [0, 1]
        [((0, 0), 0), ((1, 0), 1)] (1, 0) ∧
      m ≤ 1 ∧
      (smoothPass [0, 1, 2] [0, 1] (1/5)
          [((0, 0), 0), ((1, 0), 1)]).getD 1 ((0, 0), 0) =
        ((1, 0), if (1/5 : ℚ) < |1 - m| then m else 1) ∧
      (∀ grid2 : List ((ℤ × ℤ) × ℚ),
        List.Perm [((0, 0), 0), ((1, 0), 1)] grid2 →
        smoothCellValue [0, 1, 2] [0, 1] (1/5) (grid2.map Prod.fst)
          (grid2.map Prod.snd) (1, 0) 1 =
        smoothCellValue [0, 1, 2] [0, 1] (1/5)
          (List.map Prod.fst [((0, 0), 0), ((1, 0), 1)])
          (List.map Prod.snd [((0, 0), 0), ((1, 0), 1)]) (1, 0) 1)) :=
  ⟨by decide, by rfl,
   C2_smoothing_pass [0, 1, 2] [0, 1] (1/5) [((0, 0), 0), ((1, 0), 1)]
     1 (1, 0) 1 (by decide) (by rfl)⟩

/-- C10: smoothing never raises an estimate: every occupied cell keeps its
key and receives a smoothed value that is at most its raw estimate, because
the cell itself always lies within the search radius of its own center. -/
theorem C10_smoothing_never_raises (x_bins y_bins : List ℚ) (threshold : ℚ)
    (grid : List ((ℤ × ℤ) × ℚ)) (i : ℕ) (hi : i < grid.length) :
    ((smoothPass x_bins y_bins threshold grid).getD i ((0, 0), 0)).1 =
      (grid.getD i ((0, 0), 0)).1 ∧
    ((smoothPass x_bins y_bins threshold grid).getD i ((0, 0), 0)).2 ≤
      (grid.getD i ((0, 0), 0)).2 :=
  ⟨smoothPass_key x_bins y_bins threshold grid i hi,
   smoothPass_le x_bins y_bins threshold grid i hi⟩

/-- Witness for C10 on a concrete two-cell map: the high cell is lowered,
never raised. -/
theorem C10_smoothing_never_raises_witness :
    1 < ([((0, 0), 0), ((1, 0), 1)] : List ((ℤ × ℤ) × ℚ)).length ∧
    (((smoothPass [0, 1, 2] [0, 1] (1/5)
        [((0, 0), 0), ((1, 0), 1)]).getD 1 ((0, 0), 0)).1 =
      (([((0, 0), 0), ((1, 0), 1)] : List ((ℤ × ℤ) × ℚ)).getD 1
        ((0, 0), 0)).1 ∧
    ((smoothPass [0, 1, 2] [0, 1] (1/5)
        [((0, 0), 0), ((1, 0), 1)]).getD 1 ((0, 0), 0)).2 ≤
      (([((0, 0), 0), ((1, 0), 1)] : List ((ℤ × ℤ) × ℚ)).getD 1
        ((0, 0), 0)).2) :=
  ⟨by decide,
   C10_smoothing_never_raises [0, 1, 2] [0, 1] (1/5)
     [((0, 0), 0), ((1, 0), 1)] 1 (by decide)⟩

/-- Counterexample for C9: the smoothing pass is not idempotent.  Three
collinear cells with centers 4/5 apart carry raw estimates 0, 1/2, 1/2 and
threshold 1/5: one pass lowers the middle cell to 0 and keeps the last cell
at 1/2 (its neighborhood minimum is 1/2), but a second pass, seeing the
lowered middle cell, now also lowers the last cell to 0. -/
theorem C9_not_idempotent_counterexample :
    smoothPass [0, 4/5, 8/5, 12/5] [0, 4/5] (1/5)
        (smoothPass [0, 4/5, 8/5, 12/5] [0, 4/5] (1/5)
          [((0, 0), 0), ((1, 0), 1/2), ((2, 0), 1/2)]) ≠
      smoothPass [0, 4/5, 8/5, 12/5] [0, 4/5] (1/5)
        [((0, 0), 0), ((1, 0), 1/2), ((2, 0), 1/2)] := by
  have hr : List.range 3 = [0, 1, 2] := by decide
  have ht0 : (0 : ℤ).toNat = 0 := rfl
  have ht1 : (1 : ℤ).toNat = 1 := rfl
  have ht2 : (2 : ℤ).toNat = 2 := rfl
  have ht3 : (3 : ℤ).toNat = 3 := rfl
  have h1 : smoothPass [0, 4/5, 8/5, 12/5] [0, 4/5] (1/5)
      [((0, 0), 0), ((1, 0), 1/2), ((2, 0), 1/2)] =
      [((0, 0), 0), ((1, 0), 0), ((2, 0), 1/2)] := by
    norm_num [smoothPass, smoothCellValue, query_ball_point, cellCenter,
      binAt, distSq, search_radius, hr, List.min?, ht0, ht1, ht2, ht3,
      List.getD, min_def, List.filter, abs_of_nonneg, abs_of_nonpos,
      abs_sub_comm]
  have h2 : smoothPass [0, 4/5, 8/5, 12/5] [0, 4/5] (1/5)
      [((0, 0), 0), ((1, 0), 0), ((2, 0), 1/2)] =
      [((0, 0), 0), ((1, 0), 0), ((2, 0), 0)] := by
    norm_num [smoothPass, smoothCellValue, query_ball_point, cellCenter,
      binAt, distSq, search_radius, hr, List.min?, ht0, ht1, ht2, ht3,
      List.getD, min_def, List.filter, abs_of_nonneg, abs_of_nonpos,
      abs_sub_comm]
  rw [h1, h2]
  simp only [ne_eq, List.cons.injEq, Prod.mk.injEq]
  norm_num

/-- C9 (amended): a second smoothing pass can change the map further, but
only downward: every twice-smoothed estimate is at most the once-smoothed
estimate at the same position. -/
theorem C9_second_pass_never_raises (x_bins y_bins : List ℚ)
    (threshold : ℚ) (grid : List ((ℤ × ℤ) × ℚ)) (i : ℕ)
    (hi : i < grid.length) :
    ((smoothPass x_bins y_bins threshold
        (smoothPass x_bins y_bins threshold grid)).getD i ((0, 0), 0)).2 ≤
      ((smoothPass x_bins y_bins threshold grid).getD i ((0, 0), 0)).2 :=
  smoothPass_le x_bins y_bins threshold
    (smoothPass x_bins y_bins threshold grid) i
    (by rwa [smoothPass_length])

/-- Witness for the amended C9 on the counterexample map itself. -/
theorem C9_second_pass_never_raises_witness :
    2 < ([((0, 0), 0), ((1, 0), 1/2), ((2, 0), 1/2)] :
      List ((ℤ × ℤ) × ℚ)).length ∧
    ((smoothPass [0, 4/5, 8/5, 12/5] [0, 4/5] (1/5)
        (smoothPass [0, 4/5, 8/5, 12/5] [0, 4/5] (1/5)
          [((0, 0), 0), ((1, 0), 1/2), ((2, 0), 1/2)])).getD 2
        ((0, 0), 0)).2 ≤
      ((smoothPass [0, 4/5, 8/5, 12/5] [0, 4/5] (1/5)
          [((0, 0), 0), ((1, 0), 1/2), ((2, 0), 1/2)]).getD 2
        ((0, 0), 0)).2 :=
  ⟨by decide,
   C9_second_pass_never_raises [0, 4/5, 8/5, 12/5] [0, 4/5] (1/5)
     [((0, 0), 0), ((1, 0), 1/2), ((2, 0), 1/2)] 2 (by decide)⟩

/-- Division by a positive number is negative iff the dividend is. -/
lemma div_neg_iff_of_pos_right {a b : ℚ} (hb : 0 < b) :
    a / b < 0 ↔ a < 0 := by
  rw [div_neg_iff]
  constructor
  · rintro (⟨h1, h2⟩ | ⟨h1, h2⟩)
    · exact absurd hb (not_lt.mpr (le_of_lt h2))
    · exact h1
  · intro h
    exact Or.inr ⟨h, hb⟩

/-- C1: for a plane with nonzero normal (nrm is its norm), the transformer
returns index-aligned points whose first two coordinates are those of
p minus (s(p) divided by the squared norm) times the normal, and whose
third coordinate is s(p) divided by the norm; the sign of the output height
matches the sign of s(p), and a point exactly on the plane keeps its (x, y)
and gets height 0. -/
theorem C1_transform_plane_coordinates (points : List Point3)
    (a b c d nrm : ℚ) (hn : nrm ^ 2 = a ^ 2 + b ^ 2 + c ^ 2)
    (hpos : 0 < nrm) :
    ∃ out : List Point3,
      transform_to_plane_based_coordinates points a b c d nrm =
        Except.ok out ∧
      out.length = points.length ∧
      ∀ i, i < points.length →
        out.getD i ⟨0, 0, 0⟩ =
          ⟨(points.getD i ⟨0, 0, 0⟩).x -
             plane_equation_value a b c d (points.getD i ⟨0, 0, 0⟩) /
               (a ^ 2 + b ^ 2 + c ^ 2) * a,
           (points.getD i ⟨0, 0, 0⟩).y -
             plane_equation_value a b c d (points.getD i ⟨0, 0, 0⟩) /
               (a ^ 2 + b ^ 2 + c ^ 2) * b,
           plane_equation_value a b c d (points.getD i ⟨0, 0, 0⟩) / nrm⟩ ∧
        (0 < (out.getD i ⟨0, 0, 0⟩).z ↔
          0 < plane_equation_value a b c d (points.getD i ⟨0, 0, 0⟩)) ∧
        ((out.getD i ⟨0, 0, 0⟩).z < 0 ↔
          plane_equation_value a b c d (points.getD i ⟨0, 0, 0⟩) < 0) ∧
        (plane_equation_value a b c d (points.getD i ⟨0, 0, 0⟩) = 0 →
          out.getD i ⟨0, 0, 0⟩ =
            ⟨(points.getD i ⟨0, 0, 0⟩).x, (points.getD i ⟨0, 0, 0⟩).y, 0⟩) := by
  refine ⟨_, rfl, by simp [transform_to_plane_based_coordinates], ?_⟩
  intro i hi
  rw [getD_map_of_lt points (transformPoint a b c d nrm) i hi ⟨0, 0, 0⟩ ⟨0, 0, 0⟩]
  have hval : transformPoint a b c d nrm (points.getD i ⟨0, 0, 0⟩) =
      ⟨(points.getD i ⟨0, 0, 0⟩).x -
         plane_equation_value a b c d (points.getD i ⟨0, 0, 0⟩) / nrm ^ 2 * a,
       (points.getD i ⟨0, 0, 0⟩).y -
         plane_equation_value a b c d (points.getD i ⟨0, 0, 0⟩) / nrm ^ 2 * b,
       plane_equation_value a b c d (points.getD i ⟨0, 0, 0⟩) / nrm⟩ := rfl
  rw [hval, hn]
  refine ⟨rfl, ?_, ?_, ?_⟩
  · exact div_pos_iff_of_pos_right hpos
  · exact div_neg_iff_of_pos_right hpos
  · intro hz
    rw [hz]
    simp

/-- Witness for C1 at the horizontal plane z = 0 (coefficients (0,0,1,0),
norm 1) and the single point (1,2,3). -/
theorem C1_transform_plane_coordinates_witness :
    (1 : ℚ) ^ 2 = 0 ^ 2 + 0 ^ 2 + 1 ^ 2 ∧ (0 : ℚ) < 1 ∧
    (∃ out : List Point3,
      transform_to_plane_based_coordinates [⟨1, 2, 3⟩] 0 0 1 0 1 =
        Except.ok out ∧
      out.length = ([⟨1, 2, 3⟩] : List Point3).length ∧
      ∀ i, i < ([⟨1, 2, 3⟩] : List Point3).length →
        out.getD i ⟨0, 0, 0⟩ =
          ⟨(([⟨1, 2, 3⟩] : List Point3).getD i ⟨0, 0, 0⟩).x -
             plane_equation_value 0 0 1 0
               (([⟨1, 2, 3⟩] : List Point3).getD i ⟨0, 0, 0⟩) /
               ((0 : ℚ) ^ 2 + 0 ^ 2 + 1 ^ 2) * 0,
           (([⟨1, 2, 3⟩] : List Point3).getD i ⟨0, 0, 0⟩).y -
             plane_equation_value 0 0 1 0
               (([⟨1, 2, 3⟩] : List Point3).getD i ⟨0, 0, 0⟩) /
               ((0 : ℚ) ^ 2 + 0 ^ 2 + 1 ^ 2) * 0,
           plane_equation_value 0 0 1 0
             (([⟨1, 2, 3⟩] : List Point3).getD i ⟨0, 0, 0⟩) / 1⟩ ∧
        (0 < (out.getD i ⟨0, 0, 0⟩).z ↔
          0 < plane_equation_value 0 0 1 0
            (([⟨1, 2, 3⟩] : List Point3).getD i ⟨0, 0, 0⟩)) ∧
        ((out.getD i ⟨0, 0, 0⟩).z < 0 ↔
          plane_equation_value 0 0 1 0
            (([⟨1, 2, 3⟩] : List Point3).getD i ⟨0, 0, 0⟩) < 0) ∧
        (plane_equation_value 0 0 1 0
            (([⟨1, 2, 3⟩] : List Point3).getD i ⟨0, 0, 0⟩) = 0 →
          out.getD i ⟨0, 0, 0⟩ =
            ⟨(([⟨1, 2, 3⟩] : List Point3).getD i ⟨0, 0, 0⟩).x,
             (([⟨1, 2, 3⟩] : List Point3).getD i ⟨0, 0, 0⟩).y, 0⟩)) :=
  ⟨by norm_num, by norm_num,
   C1_transform_plane_coordinates [⟨1, 2, 3⟩] 0 0 1 0 1 (by norm_num)
     (by norm_num)⟩

/-- Counterexample for C7: at the degenerate plane (0,0,0,1), whose normal
has norm 0, the transformer does not fail with DegeneratePlane; it returns
an output list (whose entries come from dividing by the zero norm). -/
theorem C7_no_degenerate_check_counterexample :
    transform_to_plane_based_coordinates [⟨1, 2, 3⟩] 0 0 0 1 0 ≠
      Except.error TransformError.degeneratePlane ∧
    ∃ out : List Point3,
      transform_to_plane_based_coordinates [⟨1, 2, 3⟩] 0 0 0 1 0 =
        Except.ok out ∧ out.length = 1 := by
  refine ⟨?_, _, rfl, by simp [transform_to_plane_based_coordinates]⟩
  simp [transform_to_plane_based_coordinates]

/-- C7 (amended): the transformer performs no check on the normal: even
when the norm is zero it returns an index-aligned output list and never a
DegeneratePlane error. -/
theorem C7_amended_no_failure (points : List Point3) (a b c d nrm : ℚ)
    (hzero : nrm = 0) :
    (∀ err : TransformError,
      transform_to_plane_based_coordinates points a b c d nrm ≠
        Except.error err) ∧
    ∃ out : List Point3,
      transform_to_plane_based_coordinates points a b c d nrm =
        Except.ok out ∧ out.length = points.length := by
  refine ⟨fun err => ?_, _, rfl, by simp [transform_to_plane_based_coordinates]⟩
  simp [transform_to_plane_based_coordinates]

/-- Witness for the amended C7 at the zero plane (0,0,0,1) and one point. -/
theorem C7_amended_no_failure_witness :
    (0 : ℚ) = 0 ∧
    ((∀ err : TransformError,
      transform_to_plane_based_coordinates [⟨1, 2, 3⟩] 0 0 0 1 0 ≠
        Except.error err) ∧
    ∃ out : List Point3,
      transform_to_plane_based_coordinates [⟨1, 2, 3⟩] 0 0 0 1 0 =
        Except.ok out ∧ out.length = ([⟨1, 2, 3⟩] : List Point3).length) :=
  ⟨rfl, C7_amended_no_failure [⟨1, 2, 3⟩] 0 0 0 1 0 rfl⟩

/-- Reading an in-range index of a list equals the dependent get. -/
lemma getD_eq_get {α : Type} (l : List α) (i : ℕ) (hi : i < l.length)
    (d : α) : l.getD i d = l.get ⟨i, hi⟩ := by
  rw [List.getD_eq_getElem?_getD, List.getElem?_eq_getElem hi]
  rfl

/-- Adding a z-value to the dict never creates an empty value list. -/
lemma addToCell_ne_nil {m : List ((ℤ × ℤ) × List ℚ)} {k : ℤ × ℤ} {z : ℚ}
    (hm : ∀ e ∈ m, e.2 ≠ []) : ∀ e ∈ addToCell m k z, e.2 ≠ [] := by
  intro e he
  unfold addToCell at he
  split at he
  · obtain ⟨e0, he0, heq⟩ := List.mem_map.mp he
    by_cases hk : e0.1 = k
    · rw [if_pos hk] at heq
      rw [← heq]
      simp
    · rw [if_neg hk] at heq
      rw [← heq]
      exact hm e0 he0
  · rcases List.mem_append.mp he with h1 | h1
    · exact hm e h1
    · simp only [List.mem_singleton] at h1
      rw [h1]
      simp

/-- One grouping step never creates an empty value list. -/
lemma cellStep_ne_nil (x_bins y_bins : List ℚ)
    {m : List ((ℤ × ℤ) × List ℚ)} {p : Point3}
    (hm : ∀ e ∈ m, e.2 ≠ []) :
    ∀ e ∈ cellStep x_bins y_bins m p, e.2 ≠ [] := by
  simp only [cellStep]
  split
  · exact addToCell_ne_nil hm
  · exact hm

/-- Every occupied cell of the grouping holds a nonempty value list. -/
lemma buildCellLists_ne_nil (points : List Point3) (x_bins y_bins : List ℚ) :
    ∀ e ∈ buildCellLists points x_bins y_bins, e.2 ≠ [] := by
  unfold buildCellLists
  suffices hgen : ∀ (l : List Point3) (init : List ((ℤ × ℤ) × List ℚ)),
      (∀ e ∈ init, e.2 ≠ []) →
      ∀ e ∈ l.foldl (cellStep x_bins y_bins) init, e.2 ≠ [] by
    exact hgen points [] (by simp)
  intro l
  induction l with
  | nil => intro init hinit; simpa using hinit
  | cons p ps ih =>
    intro init hinit
    rw [List.foldl_cons]
    exact ih _ (cellStep_ne_nil x_bins y_bins hinit)

/-- C3: each occupied cell holding the value list zs gets the raw estimate
at rank (5 percent of the count, floored) of the ascending sort of zs; the
estimate is bounded below by the minimum of zs and above by the median of
zs. -/
theorem C3_percentile_estimate (points : List Point3) (x_bins y_bins : List ℚ)
    (k : ℤ × ℤ) (zs : List ℚ)
    (hmem : (k, zs) ∈ buildCellLists points x_bins y_bins) :
    ∃ est : ℚ,
      rawEstimate zs = some est ∧
      (k, some est) ∈ rawHeightMap points x_bins y_bins ∧
      est = (List.insertionSort (· ≤ ·) zs).getD
        (index_5th_percentile zs.length) 0 ∧
      (∃ m, zs.min? = some m ∧ m ≤ est) ∧
      est ≤ listMedian zs := by
  have hne : zs ≠ [] := buildCellLists_ne_nil points x_bins y_bins (k, zs) hmem
  have hperm : (List.insertionSort (· ≤ ·) zs).Perm zs :=
    List.perm_insertionSort _ zs
  have hlen : (List.insertionSort (· ≤ ·) zs).length = zs.length :=
    hperm.length_eq
  have hn : 1 ≤ zs.length := List.length_pos.mpr hne
  have hrle : index_5th_percentile zs.length ≤ (zs.length - 1) / 2 := by
    unfold index_5th_percentile
    simp only [Nat.zero_max]
    omega
  have hrlt : index_5th_percentile zs.length < zs.length := by
    unfold index_5th_percentile
    simp only [Nat.zero_max]
    omega
  have hsorted : List.Sorted (· ≤ ·) (List.insertionSort (· ≤ ·) zs) :=
    List.sorted_insertionSort _ zs
  have hEst : rawEstimate zs =
      some ((List.insertionSort (· ≤ ·) zs).getD
        (index_5th_percentile zs.length) 0) := by
    have hiff : zs.isEmpty = false := by
      simp [List.isEmpty_iff, hne]
    simp [rawEstimate, hiff, hlen]
  refine ⟨(List.insertionSort (· ≤ ·) zs).getD
    (index_5th_percentile zs.length) 0, hEst, ?_, rfl, ?_, ?_⟩
  · unfold rawHeightMap
    refine List.mem_map.mpr ⟨(k, zs), hmem, ?_⟩
    rw [hEst]
  · have hestmem : (List.insertionSort (· ≤ ·) zs).getD
        (index_5th_percentile zs.length) 0 ∈ zs := by
      rw [getD_eq_get _ _ (by rw [hlen]; exact hrlt)]
      exact hperm.subset (List.get_mem _ _ _)
    obtain ⟨m, hm⟩ := min?_isSome_of_mem hestmem
    exact ⟨m, hm, min?_le_of_mem hm hestmem⟩
  · have h1lt : (zs.length - 1) / 2 < zs.length := by omega
    have h2lt : zs.length / 2 < zs.length := by omega
    have hle1 : (List.insertionSort (· ≤ ·) zs).getD
        (index_5th_percentile zs.length) 0 ≤
        (List.insertionSort (· ≤ ·) zs).getD ((zs.length - 1) / 2) 0 := by
      rw [getD_eq_get _ _ (by rw [hlen]; exact hrlt),
        getD_eq_get _ _ (by rw [hlen]; exact h1lt)]
      exact List.Sorted.rel_get_of_le hsorted (by simpa using hrle)
    have hle2 : (List.insertionSort (· ≤ ·) zs).getD
        ((zs.length - 1) / 2) 0 ≤
        (List.insertionSort (· ≤ ·) zs).getD (zs.length / 2) 0 := by
      rw [getD_eq_get _ _ (by rw [hlen]; exact h1lt),
        getD_eq_get _ _ (by rw [hlen]; exact h2lt)]
      exact List.Sorted.rel_get_of_le hsorted (by simp; omega)
    unfold listMedian
    dsimp only
    linarith

/-- Witness for C3 on a single cell holding the values [5, 1/100, 0]: the
raw estimate is the rank-0 entry 0 of the ascending sort. -/
theorem C3_percentile_estimate_witness :
    ((0, 0), [5, 1/100, 0]) ∈
      buildCellLists [⟨0, 0, 5⟩, ⟨0, 0, 1/100⟩, ⟨0, 0, 0⟩] [0, 1] [0, 1] ∧
    (∃ est : ℚ,
      rawEstimate [5, 1/100, 0] = some est ∧
      ((0, 0), some est) ∈
        rawHeightMap [⟨0, 0, 5⟩, ⟨0, 0, 1/100⟩, ⟨0, 0, 0⟩] [0, 1] [0, 1] ∧
      est = (List.insertionSort (· ≤ ·) [5, 1/100, 0]).getD
        (index_5th_percentile ([5, 1/100, 0] : List ℚ).length) 0 ∧
      (∃ m, ([5, 1/100, 0] : List ℚ).min? = some m ∧ m ≤ est) ∧
      est ≤ listMedian [5, 1/100, 0]) :=
  ⟨by norm_num [buildCellLists, cellStep, addToCell, builderCellIdx,
      np_digitize, validIdx, List.countP, List.countP.go],
   C3_percentile_estimate [⟨0, 0, 5⟩, ⟨0, 0, 1/100⟩, ⟨0, 0, 0⟩] [0, 1] [0, 1]
     (0, 0) [5, 1/100, 0]
     (by norm_num [buildCellLists, cellStep, addToCell, builderCellIdx,
       np_digitize, validIdx, List.countP, List.countP.go])⟩

/-- When every point fails the validity mask, the grouping is empty. -/
lemma buildCellLists_eq_nil (x_bins y_bins : List ℚ) :
    ∀ points : List Point3,
      (∀ p ∈ points, (validIdx x_bins (builderCellIdx x_bins p.x) &&
        validIdx y_bins (builderCellIdx y_bins p.y)) = false) →
      buildCellLists points x_bins y_bins = [] := by
  intro points
  unfold buildCellLists
  induction points with
  | nil => intro _; rfl
  | cons p ps ih =>
    intro hinv
    rw [List.foldl_cons]
    have hstep : cellStep x_bins y_bins [] p = [] := by
      simp only [cellStep]
      rw [hinv p (List.mem_cons_self p ps)]
      simp
    rw [hstep]
    exact ih fun q hq => hinv q (List.mem_cons_of_mem p hq)

/-- C6: when no input point falls inside the grid extent (the validity mask
rejects every point), the height-map builder fails with the EmptyGrid error
and emits no result: the construction of the spatial index over an empty
center set aborts the call. -/
theorem C6_empty_grid_failure (points : List Point3) (x_bins y_bins : List ℚ)
    (threshold : ℚ)
    (hout : ∀ p ∈ points, (validIdx x_bins (builderCellIdx x_bins p.x) &&
      validIdx y_bins (builderCellIdx y_bins p.y)) = false) :
    calculate_height_map points x_bins y_bins threshold =
      Except.error HeightMapError.emptyGrid := by
  have h1 : rawHeightMap points x_bins y_bins = [] := by
    unfold rawHeightMap
    rw [buildCellLists_eq_nil x_bins y_bins points hout]
    rfl
  simp [calculate_height_map, h1, cKDTree_build]

/-- Witness for C6: a single point far outside a one-cell grid. -/
theorem C6_empty_grid_failure_witness :
    (∀ p ∈ ([⟨5, 5, 0⟩] : List Point3),
      (validIdx [0, 1] (builderCellIdx [0, 1] p.x) &&
        validIdx [0, 1] (builderCellIdx [0, 1] p.y)) = false) ∧
    calculate_height_map [⟨5, 5, 0⟩] [0, 1] [0, 1] (1/5) =
      Except.error HeightMapError.emptyGrid :=
  ⟨by norm_num [validIdx, builderCellIdx, np_digitize, List.countP,
      List.countP.go],
   C6_empty_grid_failure [⟨5, 5, 0⟩] [0, 1] [0, 1] (1/5)
     (by norm_num [validIdx, builderCellIdx, np_digitize, List.countP,
       List.countP.go])⟩

/-- On bins sorted ascending, counting the edges ≤ v (np.digitize) equals
the length of the leading run of edges ≤ v (np.searchsorted side=right). -/
lemma digitize_eq_searchsorted {bins : List ℚ} (hs : bins.Sorted (· ≤ ·))
    (v : ℚ) : np_digitize v bins = np_searchsorted_right bins v := by
  unfold np_digitize np_searchsorted_right
  induction bins with
  | nil => rfl
  | cons b bs ih =>
    rw [List.sorted_cons] at hs
    by_cases hb : b ≤ v
    · rw [List.countP_cons, List.takeWhile_cons]
      simp [hb, ih hs.2]
    · have hzero : bs.countP (fun x => decide (x ≤ v)) = 0 := by
        rw [List.countP_eq_zero]
        intro x hx
        simp only [decide_eq_true_eq]
        intro hxv
        exact hb (le_trans (hs.1 x hx) hxv)
      rw [List.countP_cons, List.takeWhile_cons]
      simp [hb, hzero]

/-- On strictly sorted bins, a value equal to edge k has exactly the k + 1
leading edges ≤ it. -/
lemma digitize_at_edge {bins : List ℚ} {v : ℚ} (hs : bins.Sorted (· < ·)) :
    ∀ k : ℕ, k < bins.length → bins.getD k 0 = v →
      np_digitize v bins = k + 1 := by
  unfold np_digitize
  induction bins with
  | nil => intro k hk; simp at hk
  | cons b bs ih =>
    rw [List.sorted_cons] at hs
    intro k hk hv
    cases k with
    | zero =>
      rw [List.getD_cons_zero] at hv
      subst hv
      rw [List.countP_cons]
      have hzero : bs.countP (fun x => decide (x ≤ b)) = 0 := by
        rw [List.countP_eq_zero]
        intro x hx
        simp only [decide_eq_true_eq]
        intro hxb
        exact absurd (hs.1 x hx) (not_lt.mpr hxb)
      simp [hzero]
    | succ n =>
      rw [List.getD_cons_succ] at hv
      rw [List.length_cons, Nat.succ_lt_succ_iff] at hk
      have hmem : v ∈ bs := by
        rw [← hv]
        exact getD_mem_of_lt bs n hk 0
      have hbv : b ≤ v := le_of_lt (hs.1 v hmem)
      rw [List.countP_cons]
      rw [ih hs.2 n hk hv]
      simp [hbv]

/-- C8: on sorted bins the height-map builder (digitize-based) and the
classifier (searchsorted-based) assign every coordinate the same cell; and
when the coordinate equals the strictly-sorted bin edge k, both assign cell
index k, the cell whose left (closed) edge it is, i.e. the higher-indexed
of the two cells meeting at that edge. -/
theorem C8_bucketing_consistency (bins : List ℚ) (v : ℚ)
    (hs : bins.Sorted (· ≤ ·)) :
    builderCellIdx bins v = classifierCellIdx bins v ∧
    (∀ k : ℕ, k < bins.length → bins.Sorted (· < ·) → bins.getD k 0 = v →
      builderCellIdx bins v = k ∧ classifierCellIdx bins v = k) := by
  have heq : np_digitize v bins = np_searchsorted_right bins v :=
    digitize_eq_searchsorted hs v
  constructor
  · unfold builderCellIdx classifierCellIdx
    rw [heq]
  · intro k hk hstrict hv
    have hd : np_digitize v bins = k + 1 := digitize_at_edge hstrict k hk hv
    constructor
    · unfold builderCellIdx
      rw [hd]
      omega
    · unfold classifierCellIdx
      rw [← heq, hd]
      omega

/-- Witness for C8 at bins [0, 1, 2] and the interior edge 1: both bucketing
procedures place the coordinate 1 in cell 1 = [1, 2). -/
theorem C8_bucketing_consistency_witness :
    ([0, 1, 2] : List ℚ).Sorted (· ≤ ·) ∧
    (builderCellIdx [0, 1, 2] 1 = classifierCellIdx [0, 1, 2] 1 ∧
    (∀ k : ℕ, k < ([0, 1, 2] : List ℚ).length →
      ([0, 1, 2] : List ℚ).Sorted (· < ·) →
      ([0, 1, 2] : List ℚ).getD k 0 = 1 →
      builderCellIdx [0, 1, 2] 1 = k ∧ classifierCellIdx [0, 1, 2] 1 = k)) :=
  ⟨by norm_num [List.sorted_cons],
   C8_bucketing_consistency [0, 1, 2] 1 (by norm_num [List.sorted_cons])⟩

/-- The per-point non-floor test unfolded into its three conditions. -/
lemma isNonFloorPoint_iff (x_bins y_bins : List ℚ)
    (hm : List ((ℤ × ℤ) × ℚ)) (threshold : ℚ) (p : Point3) :
    isNonFloorPoint x_bins y_bins hm threshold p = true ↔
      (validIdx x_bins (classifierCellIdx x_bins p.x) = true ∧
       validIdx y_bins (classifierCellIdx y_bins p.y) = true ∧
       ∃ h : ℚ, hmGet hm (classifierCellIdx x_bins p.x,
           classifierCellIdx y_bins p.y) = some h ∧
         threshold < |p.z - h|) := by
  unfold isNonFloorPoint
  by_cases hv : (validIdx x_bins (classifierCellIdx x_bins p.x) &&
      validIdx y_bins (classifierCellIdx y_bins p.y)) = true
  · rw [Bool.and_eq_true] at hv
    simp only [hv.1, hv.2, Bool.and_self, if_true]
    cases hg : hmGet hm (classifierCellIdx x_bins p.x,
        classifierCellIdx y_bins p.y) with
    | some hh => simp [hg, hv.1, hv.2]
    | none => simp [hg, hv.1, hv.2]
  · rw [Bool.and_eq_true, not_and_or] at hv
    rcases hv with hv | hv
    · simp only [Bool.not_eq_true] at hv
      simp [hv]
    · simp only [Bool.not_eq_true] at hv
      simp [hv]

/-- Membership in the non-floor index list is exactly the per-point test at
that index. -/
lemma mem_non_floor_indices_iff (points : List Point3)
    (x_bins y_bins : List ℚ) (hm : List ((ℤ × ℤ) × ℚ)) (threshold : ℚ)
    (idx : ℕ) :
    idx ∈ non_floor_indices points x_bins y_bins hm threshold ↔
      ∃ p, points[idx]? = some p ∧
        isNonFloorPoint x_bins y_bins hm threshold p = true := by
  unfold non_floor_indices
  rw [List.mem_filterMap]
  constructor
  · rintro ⟨⟨i, a⟩, he, hf⟩
    dsimp only at hf
    by_cases hb : isNonFloorPoint x_bins y_bins hm threshold a = true
    · rw [if_pos hb] at hf
      have hidx : i = idx := by simpa using hf
      subst hidx
      exact ⟨a, List.mem_enum_iff_getElem?.mp he, hb⟩
    · rw [if_neg hb] at hf
      simp at hf
  · rintro ⟨p, hp, hb⟩
    exact ⟨(idx, p), List.mem_enum_iff_getElem?.mpr hp, by
      dsimp only
      rw [if_pos hb]⟩

/-- C4: the classifier marks the point at an index non-floor exactly when
its searchsorted cell is inside the grid bounds, the cell is occupied in the
smoothed height map, and the height gap exceeds the threshold; points with
out-of-bounds or unoccupied cells are never added to the non-floor list. -/
theorem C4_classifier_characterization (points : List Point3)
    (x_bins y_bins : List ℚ) (hm : List ((ℤ × ℤ) × ℚ)) (threshold : ℚ)
    (idx : ℕ) (p : Point3) (hp : points[idx]? = some p) :
    idx ∈ non_floor_indices points x_bins y_bins hm threshold ↔
      (validIdx x_bins (classifierCellIdx x_bins p.x) = true ∧
       validIdx y_bins (classifierCellIdx y_bins p.y) = true ∧
       ∃ h : ℚ, hmGet hm (classifierCellIdx x_bins p.x,
           classifierCellIdx y_bins p.y) = some h ∧
         threshold < |p.z - h|) := by
  rw [mem_non_floor_indices_iff]
  constructor
  · rintro ⟨q, hq, hb⟩
    have hqp : q = p := by
      rw [hp] at hq
      exact (by simpa using hq : p = q).symm
    subst hqp
    exact (isNonFloorPoint_iff x_bins y_bins hm threshold q).mp hb
  · intro hcond
    exact ⟨p, hp, (isNonFloorPoint_iff x_bins y_bins hm threshold p).mpr hcond⟩

/-- Witness for C4: a point 1 above a cell with ground estimate 0 and
threshold 3/20 is non-floor. -/
theorem C4_classifier_characterization_witness :
    ([⟨0, 0, 1⟩] : List Point3)[0]? = some ⟨0, 0, 1⟩ ∧
    (0 ∈ non_floor_indices [⟨0, 0, 1⟩] [0, 1] [0, 1] [((0, 0), 0)] (3/20) ↔
      (validIdx [0, 1] (classifierCellIdx [0, 1] (⟨0, 0, 1⟩ : Point3).x) = true ∧
       validIdx [0, 1] (classifierCellIdx [0, 1] (⟨0, 0, 1⟩ : Point3).y) = true ∧
       ∃ h : ℚ, hmGet [((0, 0), 0)]
           (classifierCellIdx [0, 1] (⟨0, 0, 1⟩ : Point3).x,
            classifierCellIdx [0, 1] (⟨0, 0, 1⟩ : Point3).y) = some h ∧
         (3/20 : ℚ) < |(⟨0, 0, 1⟩ : Point3).z - h|)) :=
  ⟨rfl, C4_classifier_characterization [⟨0, 0, 1⟩] [0, 1] [0, 1]
    [((0, 0), 0)] (3/20) 0 ⟨0, 0, 1⟩ rfl⟩

/-- Every point is in exactly one of the classifier classes non-floor,
classifier-floor, excluded. -/
lemma classifier_trichotomy (x_bins y_bins : List ℚ)
    (hm : List ((ℤ × ℤ) × ℚ)) (threshold : ℚ) (p : Point3) :
    (isNonFloorPoint x_bins y_bins hm threshold p = true ∨
     isClassifierFloorPoint x_bins y_bins hm threshold p = true ∨
     isExcludedPoint x_bins y_bins hm p = true) ∧
    ¬(isNonFloorPoint x_bins y_bins hm threshold p = true ∧
      isClassifierFloorPoint x_bins y_bins hm threshold p = true) ∧
    ¬(isNonFloorPoint x_bins y_bins hm threshold p = true ∧
      isExcludedPoint x_bins y_bins hm p = true) ∧
    ¬(isClassifierFloorPoint x_bins y_bins hm threshold p = true ∧
      isExcludedPoint x_bins y_bins hm p = true) := by
  unfold isNonFloorPoint isClassifierFloorPoint isExcludedPoint
  by_cases hv : (validIdx x_bins (classifierCellIdx x_bins p.x) &&
      validIdx y_bins (classifierCellIdx y_bins p.y)) = true
  · simp only [hv, if_true, Bool.not_true, Bool.false_or]
    cases hg : hmGet hm (classifierCellIdx x_bins p.x,
        classifierCellIdx y_bins p.y) with
    | some hh =>
      simp only [hg, Option.isNone_some]
      by_cases ht : threshold < |p.z - hh|
      · simp [ht, not_le.mpr ht]
      · simp [ht, not_lt.mp ht]
    | none => simp [hg]
  · have hv2 : (validIdx x_bins (classifierCellIdx x_bins p.x) &&
        validIdx y_bins (classifierCellIdx y_bins p.y)) = false :=
      Bool.not_eq_true _ ▸ (Bool.eq_false_iff.mpr hv)
    simp [hv2]

/-- Membership in the floor index list is being in range and not non-floor. -/
lemma mem_floor_indices_iff (points : List Point3) (x_bins y_bins : List ℚ)
    (hm : List ((ℤ × ℤ) × ℚ)) (threshold : ℚ) (idx : ℕ) :
    idx ∈ floor_indices points x_bins y_bins hm threshold ↔
      idx < points.length ∧
        idx ∉ non_floor_indices points x_bins y_bins hm threshold := by
  unfold floor_indices
  rw [List.mem_filter, List.mem_range]
  simp

/-- Membership in the excluded index list is the per-point exclusion test at
that index. -/
lemma mem_excluded_indices_iff (points : List Point3)
    (x_bins y_bins : List ℚ) (hm : List ((ℤ × ℤ) × ℚ)) (idx : ℕ) :
    idx ∈ excluded_indices points x_bins y_bins hm ↔
      ∃ p, points[idx]? = some p ∧
        isExcludedPoint x_bins y_bins hm p = true := by
  unfold excluded_indices
  rw [List.mem_filterMap]
  constructor
  · rintro ⟨⟨i, a⟩, he, hf⟩
    dsimp only at hf
    by_cases hb : isExcludedPoint x_bins y_bins hm a = true
    · rw [if_pos hb] at hf
      have hidx : i = idx := by simpa using hf
      subst hidx
      exact ⟨a, List.mem_enum_iff_getElem?.mp he, hb⟩
    · rw [if_neg hb] at hf
      simp at hf
  · rintro ⟨p, hp, hb⟩
    exact ⟨(idx, p), List.mem_enum_iff_getElem?.mpr hp, by
      dsimp only
      rw [if_pos hb]⟩

/-- Counterexample for C5: on a frame with an out-of-grid point, the floor
set computed as the complement of the non-floor set is not disjoint from
the excluded set: index 1 (point (10,0,0), outside the one-cell grid) lies
in both.  The height map is the one the pipeline itself produces. -/
theorem C5_floor_excluded_overlap_counterexample :
    calculate_height_map [⟨0, 0, 0⟩, ⟨10, 0, 0⟩] [0, 1] [0, 1] (1/20) =
      Except.ok [((0, 0), 0)] ∧
    1 ∈ floor_indices [⟨0, 0, 0⟩, ⟨10, 0, 0⟩] [0, 1] [0, 1]
      [((0, 0), 0)] (3/20) ∧
    1 ∈ excluded_indices [⟨0, 0, 0⟩, ⟨10, 0, 0⟩] [0, 1] [0, 1]
      [((0, 0), 0)] := by
  have hnf : isNonFloorPoint [0, 1] [0, 1] [((0, 0), 0)] (3/20)
      ⟨10, 0, 0⟩ = false := by
    norm_num [isNonFloorPoint, classifierCellIdx, np_searchsorted_right,
      validIdx, List.takeWhile]
  have hex : isExcludedPoint [0, 1] [0, 1] [((0, 0), 0)] ⟨10, 0, 0⟩ =
      true := by
    norm_num [isExcludedPoint, classifierCellIdx, np_searchsorted_right,
      validIdx, List.takeWhile]
  refine ⟨?_, ?_, ?_⟩
  · have hr : List.range 1 = [0] := by decide
    have ht0 : (0 : ℤ).toNat = 0 := rfl
    have ht1 : (1 : ℤ).toNat = 1 := rfl
    norm_num [calculate_height_map, rawHeightMap, buildCellLists, cellStep,
      addToCell, builderCellIdx, np_digitize, validIdx, rawEstimate,
      index_5th_percentile, List.insertionSort, List.orderedInsert,
      cKDTree_build, smoothPass, smoothCellValue, query_ball_point,
      cellCenter, binAt, distSq, search_radius, hr, List.min?, ht0, ht1,
      List.getD, min_def, List.filter, List.countP, List.countP.go,
      abs_of_nonneg, abs_of_nonpos, abs_sub_comm, List.filterMap_cons,
      List.filterMap_nil, List.isEmpty]
  · rw [mem_floor_indices_iff]
    refine ⟨by norm_num, ?_⟩
    rw [mem_non_floor_indices_iff]
    rintro ⟨q, hq, hb⟩
    have hqp : q = (⟨10, 0, 0⟩ : Point3) := by
      exact (by simpa using hq : (⟨10, 0, 0⟩ : Point3) = q).symm
    rw [hqp, hnf] at hb
    simp at hb
  · rw [mem_excluded_indices_iff]
    exact ⟨⟨10, 0, 0⟩, rfl, hex⟩

/-- C5 (amended): with floor read as the classifier-determined floor class,
every point of the frame belongs to exactly one of non-floor, floor,
excluded; the non-floor index list contains exactly the non-floor points,
while the floor_indices value of the code (full index range minus the
non-floor set) is the union of the floor and excluded classes, not the
floor class alone. -/
theorem C5_partition_amended (points : List Point3) (x_bins y_bins : List ℚ)
    (hm : List ((ℤ × ℤ) × ℚ)) (threshold : ℚ) (idx : ℕ) (p : Point3)
    (hp : points[idx]? = some p) :
    (isNonFloorPoint x_bins y_bins hm threshold p = true ∨
     isClassifierFloorPoint x_bins y_bins hm threshold p = true ∨
     isExcludedPoint x_bins y_bins hm p = true) ∧
    ¬(isNonFloorPoint x_bins y_bins hm threshold p = true ∧
      isClassifierFloorPoint x_bins y_bins hm threshold p = true) ∧
    ¬(isNonFloorPoint x_bins y_bins hm threshold p = true ∧
      isExcludedPoint x_bins y_bins hm p = true) ∧
    ¬(isClassifierFloorPoint x_bins y_bins hm threshold p = true ∧
      isExcludedPoint x_bins y_bins hm p = true) ∧
    (idx ∈ non_floor_indices points x_bins y_bins hm threshold ↔
      isNonFloorPoint x_bins y_bins hm threshold p = true) ∧
    (idx ∈ floor_indices points x_bins y_bins hm threshold ↔
      (isClassifierFloorPoint x_bins y_bins hm threshold p = true ∨
       isExcludedPoint x_bins y_bins hm p = true)) := by
  obtain ⟨htri, h12, h13, h23⟩ :=
    classifier_trichotomy x_bins y_bins hm threshold p
  have hlen : idx < points.length := by
    by_contra hcon
    rw [List.getElem?_eq_none (Nat.le_of_not_lt hcon)] at hp
    simp at hp
  have hnf : idx ∈ non_floor_indices points x_bins y_bins hm threshold ↔
      isNonFloorPoint x_bins y_bins hm threshold p = true := by
    rw [mem_non_floor_indices_iff]
    constructor
    · rintro ⟨q, hq, hb⟩
      have hqp : q = p := by
        rw [hp] at hq
        exact (by simpa using hq : p = q).symm
      rw [← hqp]
      exact hb
    · intro hb
      exact ⟨p, hp, hb⟩
  refine ⟨htri, h12, h13, h23, hnf, ?_⟩
  rw [mem_floor_indices_iff, hnf]
  constructor
  · rintro ⟨-, hnot⟩
    rcases htri with h | h | h
    · exact absurd h hnot
    · exact Or.inl h
    · exact Or.inr h
  · intro hfe
    refine ⟨hlen, ?_⟩
    intro hb
    rcases hfe with h | h
    · exact h12 ⟨hb, h⟩
    · exact h13 ⟨hb, h⟩

/-- Witness for the amended C5 on the counterexample frame, at the excluded
index 1. -/
theorem C5_partition_amended_witness :
    ([⟨0, 0, 0⟩, ⟨10, 0, 0⟩] : List Point3)[1]? = some ⟨10, 0, 0⟩ ∧
    ((isNonFloorPoint [0, 1] [0, 1] [((0, 0), 0)] (3/20)
        ⟨10, 0, 0⟩ = true ∨
      isClassifierFloorPoint [0, 1] [0, 1] [((0, 0), 0)] (3/20)
        ⟨10, 0, 0⟩ = true ∨
      isExcludedPoint [0, 1] [0, 1] [((0, 0), 0)] ⟨10, 0, 0⟩ = true) ∧
    ¬(isNonFloorPoint [0, 1] [0, 1] [((0, 0), 0)] (3/20)
        ⟨10, 0, 0⟩ = true ∧
      isClassifierFloorPoint [0, 1] [0, 1] [((0, 0), 0)] (3/20)
        ⟨10, 0, 0⟩ = true) ∧
    ¬(isNonFloorPoint [0, 1] [0, 1] [((0, 0), 0)] (3/20)
        ⟨10, 0, 0⟩ = true ∧
      isExcludedPoint [0, 1] [0, 1] [((0, 0), 0)] ⟨10, 0, 0⟩ = true) ∧
    ¬(isClassifierFloorPoint [0, 1] [0, 1] [((0, 0), 0)] (3/20)
        ⟨10, 0, 0⟩ = true ∧
      isExcludedPoint [0, 1] [0, 1] [((0, 0), 0)] ⟨10, 0, 0⟩ = true) ∧
    (1 ∈ non_floor_indices [⟨0, 0, 0⟩, ⟨10, 0, 0⟩] [0, 1] [0, 1]
        [((0, 0), 0)] (3/20) ↔
      isNonFloorPoint [0, 1] [0, 1] [((0, 0), 0)] (3/20)
        ⟨10, 0, 0⟩ = true) ∧
    (1 ∈ floor_indices [⟨0, 0, 0⟩, ⟨10, 0, 0⟩] [0, 1] [0, 1]
        [((0, 0), 0)] (3/20) ↔
      (isClassifierFloorPoint [0, 1] [0, 1] [((0, 0), 0)] (3/20)
        ⟨10, 0, 0⟩ = true ∨
       isExcludedPoint [0, 1] [0, 1] [((0, 0), 0)] ⟨10, 0, 0⟩ = true))) :=
  ⟨rfl, C5_partition_amended [⟨0, 0, 0⟩, ⟨10, 0, 0⟩] [0, 1] [0, 1]
    [((0, 0), 0)] (3/20) 1 ⟨10, 0, 0⟩ rfl⟩
